import Mathlib

/-!
Verification development for the georga volunteer-coordination backend
(file src/georga/models.py). The instance-level authorization mixin
(`MixinAuthorization`), the concrete permission predicates of `Person` and
`ACE`, the `ACE.clean` validation, the `Message.delivery_state` aggregate
and the declared lifecycle state machines are embedded shallowly and their
specified properties are proved below.
-/

set_option maxRecDepth 4000

/-- Truthiness of a primary-key value as Python sees it: a pk of `None`
(modelled `Option.none`) is falsy, an integer pk is falsy iff it is 0.
Mirrors the checks `not self.pk` / `not instance.id` in models.py. -/
def pkTruthy : Option Nat → Bool
  | Option.none => false
  | some k => k != 0

/-- Django Q object, as used by models.py: either the empty conjunction
`Q()` (falsy) or a non-empty condition, modelled as a boolean predicate
over the rows (truthy). -/
inductive QObj (α : Type) where
  | empty : QObj α
  | pred : (α → Bool) → QObj α

/-- Combination `q1 | q2` of Django Q objects: an empty side is dropped
(`Q() | q` returns a copy of `q` and vice versa), two non-empty sides
produce the disjunction. -/
def qOr {α : Type} : QObj α → QObj α → QObj α
  | QObj.empty, q => q
  | q, QObj.empty => q
  | QObj.pred p, QObj.pred r => QObj.pred (fun x => p x || r x)

/-- Python truthiness of a Q object: `Q()` is falsy, any non-empty Q is
truthy (mirrors the `if q:` test in `filter_permitted`). -/
def qTruthy {α : Type} : QObj α → Bool
  | QObj.empty => false
  | QObj.pred _ => true

/-- The row predicate denoted by a Q object; `Q()` matches every row. -/
def qPred {α : Type} : QObj α → α → Bool
  | QObj.empty, _ => true
  | QObj.pred p, x => p x

/-- Return value of a `permitted()` classmethod: Python `True`, `False`,
`None`, or a Q object. -/
inductive Permitted (α : Type) where
  | tru : Permitted α
  | fls : Permitted α
  | non : Permitted α
  | qobj : QObj α → Permitted α

/-- Python `bool(...)` coercion of a `permitted()` result, as applied on
the transient path of `permits` (`permit |= bool(self.permitted(...))`). -/
def permittedBool {α : Type} : Permitted α → Bool
  | Permitted.tru => true
  | Permitted.fls => false
  | Permitted.non => false
  | Permitted.qobj q => qTruthy q

/-- Python values that may be passed as the `actions` argument of
`filter_permitted` / `permits`: a string, an int, a tuple, or `None`. -/
inductive PyObj where
  | str : String → PyObj
  | int : Int → PyObj
  | tup : List PyObj → PyObj
  | pynone : PyObj

/-- Helper for `_prepare_permission_actions`: the loop asserting that every
member of the actions tuple is a string. -/
def prepareActionsList : List PyObj → Except String (List String)
  | [] => Except.ok []
  | PyObj.str s :: rest => (prepareActionsList rest).map (fun l => s :: l)
  | _ :: rest => Except.error ("Error: action is not a string.")

/-- Embedding of `MixinAuthorization._prepare_permission_actions`: a string
becomes a one-element tuple; anything that is not a tuple fails the
`isinstance(actions, tuple)` assertion; a tuple member that is not a string
fails the per-member assertion; the (possibly empty) tuple of strings is
returned. -/
def _prepare_permission_actions : PyObj → Except String (List String)
  | PyObj.str s => Except.ok [s]
  | PyObj.tup elems => prepareActionsList elems
  | _ => Except.error ("Error: actions is not a tuple.")

/-- Embedding of the action loop of `MixinAuthorization.filter_permitted`:
for each action the result of `permitted()` is consulted; `False`/`None`
contribute nothing, `True` returns the unfiltered queryset at once, a Q
object is OR-combined into the accumulator `q` (initially `Q()`); at the
end, the queryset filtered by `q` is returned if `q` is truthy, the empty
queryset otherwise. The queryset is modelled as a list of rows. -/
def filter_permitted_loop {α U : Type} (P : Option α → U → String → Permitted α)
    (queryset : List α) (inst : Option α) (user : U) :
    List String → QObj α → List α
  | [], q => if qTruthy q then queryset.filter (qPred q) else []
  | action :: rest, q =>
    match P inst user action with
    | Permitted.fls => filter_permitted_loop P queryset inst user rest q
    | Permitted.non => filter_permitted_loop P queryset inst user rest q
    | Permitted.tru => queryset
    | Permitted.qobj p => filter_permitted_loop P queryset inst user rest (qOr q p)

/-- Embedding of `MixinAuthorization.filter_permitted`. The entity type's
full collection `objects` (i.e. `cls.objects`) is passed explicitly and is
used when `queryset` is `None`; the actions argument is normalized by
`_prepare_permission_actions` (whose assertions turn into `Except.error`);
then the action loop runs with accumulator `Q()`. -/
def filter_permitted {α U : Type} (P : Option α → U → String → Permitted α)
    (objects : List α) (queryset : Option (List α)) (inst : Option α)
    (user : U) (actions : PyObj) : Except String (List α) := do
  let qs := match queryset with
    | Option.none => objects
    | some given => given
  let acts ← _prepare_permission_actions actions
  pure (filter_permitted_loop P qs inst user acts QObj.empty)

/-- Embedding of `MixinAuthorization.permits`. For a transient instance
(falsy pk) the actions are normalized and the boolean coercions of the
`permitted()` results are OR-folded; for a persisted instance the model's
full queryset is filtered by `filter_permitted` (with the instance itself
passed along), restricted to the instance's pk, and tested for existence. -/
def permits {α U : Type} (P : Option α → U → String → Permitted α)
    (objects : List α) (pk : α → Option Nat) (self : α) (user : U)
    (actions : PyObj) : Except String Bool :=
  if pkTruthy (pk self) then do
    let qs ← filter_permitted P objects (some objects) (some self) user actions
    pure (!(qs.filter (fun x => pk x == pk self)).isEmpty)
  else do
    let acts ← _prepare_permission_actions actions
    pure (acts.foldl (fun permit action => permit || permittedBool (P (some self) user action)) false)

/-- Embedding of the default `MixinAuthorization.permitted`: a transient
instance (truthy instance with falsy id) matches the first wildcard case
and yields `False`; `None` or a persisted instance falls to the second
wildcard case and yields `None`. -/
def MixinAuthorization.permitted {α U : Type} (pk : α → Option Nat)
    (inst : Option α) (user : U) (action : String) : Permitted α :=
  match inst with
  | some i => if pkTruthy (pk i) then Permitted.non else Permitted.fls
  | Option.none => Permitted.non

/-- Actor/user record. Only the fields consulted by the permission and
validation code are embedded: the pk, the staff flag, the employed
organizations, and the cached admin-scope id sets that models.py derives
in the `admin_organization_ids` / `admin_project_ids` /
`admin_operation_ids` cached properties (treated here as given actor data,
as the spec's external-interface section describes them). -/
structure Person where
  id : Option Nat
  is_staff : Bool
  organizations_employed : List Nat
  admin_organization_ids : List Nat
  admin_project_ids : List Nat
  admin_operation_ids : List Nat

/-- Equality test of a pk-valued field against a pk value, as a Django
lookup `Q(field=value)` compiles it: a missing pk on either side matches
nothing. -/
def pkMatch : Option Nat → Option Nat → Bool
  | some i, some j => i == j
  | _, _ => false

/-- Target of an ACE's generic foreign key: an Organization, a Project
(with its organization id), or an Operation (with its project id and that
project's organization id). -/
inductive AceInstance where
  | organization : Nat → AceInstance
  | project : Nat → Nat → AceInstance
  | operation : Nat → Nat → Nat → AceInstance

/-- The `instance.organization` attribute read by `ACE.clean`:
`Organization.organization` returns itself, `Project.organization` is its
foreign key, `Operation.organization` returns `project.organization`. -/
def AceInstance.organizationId : AceInstance → Nat
  | AceInstance.organization i => i
  | AceInstance.project _ o => o
  | AceInstance.operation _ _ o => o

/-- Access control entry. `instance_ct_app_label` / `instance_ct_model`
are the two components of the content-type column checked by `clean`;
`instance_obj` is the resolved generic foreign key (named `instance` in
the source, a reserved word here). -/
structure ACEEnt where
  id : Option Nat
  instance_ct_app_label : String
  instance_ct_model : String
  instance_obj : AceInstance
  person : Person
  permission : String

/-- The `ACE.instance_cts` list of valid target models. -/
def ACE.instance_cts : List String := ["organization", "project", "operation"]

/-- Embedding of `ACE.clean` (`super().clean()` is a no-op): first the
content type must be app label georga with a model in `instance_cts`, then
the person must be staff, then the person must be employed by the
organization of the target instance; each failing check raises a
ValidationError, a passing ACE returns unit. This runs at validation time,
independent of storage constraints and of the permission predicates. -/
def ACE.clean (a : ACEEnt) : Except String Unit :=
  if !(a.instance_ct_app_label == "georga" && ACE.instance_cts.contains a.instance_ct_model) then
    Except.error ("not a valid content type for ACE.instance")
  else if !a.person.is_staff then
    Except.error ("person is not staff")
  else if !a.person.organizations_employed.contains a.instance_obj.organizationId then
    Except.error ("person is not employed by organization of instance")
  else
    Except.ok ()

/-- Row predicate of `Q(person=user)` on the ACE table. -/
def ACE.qPerson (user : Person) : ACEEnt → Bool :=
  fun a => pkMatch a.person.id user.id

/-- Row predicate of `Q(organization__in=ids)` on the ACE table (the
reverse generic relation named organization). -/
def ACE.qOrganizationIn (ids : List Nat) : ACEEnt → Bool :=
  fun a => match a.instance_obj with
    | AceInstance.organization i => ids.contains i
    | _ => false

/-- Row predicate of `Q(project__in=ids)` on the ACE table. -/
def ACE.qProjectIn (ids : List Nat) : ACEEnt → Bool :=
  fun a => match a.instance_obj with
    | AceInstance.project i _ => ids.contains i
    | _ => false

/-- Row predicate of `Q(operation__in=ids)` on the ACE table. -/
def ACE.qOperationIn (ids : List Nat) : ACEEnt → Bool :=
  fun a => match a.instance_obj with
    | AceInstance.operation i _ _ => ids.contains i
    | _ => false

/-- Row predicate of `Q(project__organization__in=ids)` on the ACE table. -/
def ACE.qProjectOrganizationIn (ids : List Nat) : ACEEnt → Bool :=
  fun a => match a.instance_obj with
    | AceInstance.project _ o => ids.contains o
    | _ => false

/-- Row predicate of `Q(operation__project__in=ids)` on the ACE table. -/
def ACE.qOperationProjectIn (ids : List Nat) : ACEEnt → Bool :=
  fun a => match a.instance_obj with
    | AceInstance.operation _ p _ => ids.contains p
    | _ => false

/-- The queryset-filtering arm of `ACE.permitted` (the second `match` in
the source): read/update/delete yield the `reduce(or_, [...])` combination
of the listed Q objects (a single non-empty Q), any other action yields
`None`. -/
def ACE.permittedQs (user : Person) (action : String) : Permitted ACEEnt :=
  match action with
  | "read" => Permitted.qobj (QObj.pred (fun a =>
      ACE.qPerson user a
      || ACE.qOrganizationIn user.admin_organization_ids a
      || ACE.qProjectIn user.admin_project_ids a
      || ACE.qOperationIn user.admin_operation_ids a))
  | "update" => Permitted.qobj (QObj.pred (fun a =>
      ACE.qOrganizationIn user.admin_organization_ids a
      || ACE.qProjectIn user.admin_project_ids a
      || ACE.qOperationIn user.admin_operation_ids a))
  | "delete" => Permitted.qobj (QObj.pred (fun a =>
      ACE.qProjectOrganizationIn user.admin_organization_ids a
      || ACE.qOperationProjectIn user.admin_project_ids a))
  | _ => Permitted.non

/-- The create arm of `ACE.permitted` for transient ACEs: a Project target
returns whether the user administers its organization, an Operation target
whether the user administers its project; an Organization target matches
no isinstance branch, so control falls through (`Option.none`) to the
second match of the source. -/
def ACE.permittedCreate (a : ACEEnt) (user : Person) : Option (Permitted ACEEnt) :=
  match a.instance_obj with
  | AceInstance.project _ orgId =>
      some (if user.admin_organization_ids.contains orgId then Permitted.tru else Permitted.fls)
  | AceInstance.operation _ projId _ =>
      some (if user.admin_project_ids.contains projId then Permitted.tru else Permitted.fls)
  | AceInstance.organization _ => Option.none

/-- The transient arm of `ACE.permitted` (the first `match` of the
source): a create consults the create arm and falls through to the
queryset arm when no isinstance branch returned; any other action returns
`False`. -/
def ACE.permittedTransient (a : ACEEnt) (user : Person) (action : String) : Permitted ACEEnt :=
  match action with
  | "create" =>
    match ACE.permittedCreate a user with
    | some r => r
    | Option.none => ACE.permittedQs user action
  | _ => Permitted.fls

/-- Embedding of `ACE.permitted`: non-staff users are denied outright; a
transient ACE is handled by the create arm (any non-create action returns
`False`, a create on an Organization target falls through); `None` or a
persisted ACE is handled by the queryset arm. -/
def ACE.permitted (ace : Option ACEEnt) (user : Person) (action : String) : Permitted ACEEnt :=
  if !user.is_staff then Permitted.fls
  else
    match ace with
    | some a =>
      if pkTruthy a.id then ACE.permittedQs user action
      else ACE.permittedTransient a user action
    | Option.none => ACE.permittedQs user action

/-- The queryset-filtering arm of `Person.permitted`: read and write yield
`Q(pk=user.pk)`, any other action yields `None`. -/
def Person.permittedQ (user : Person) (action : String) : Permitted Person :=
  match action with
  | "read" => Permitted.qobj (QObj.pred (fun p => pkMatch p.id user.id))
  | "write" => Permitted.qobj (QObj.pred (fun p => pkMatch p.id user.id))
  | _ => Permitted.non

/-- Embedding of `Person.permitted`: a transient person yields `False` for
every action; `None` or a persisted person is handled by the queryset
arm. -/
def Person.permitted (person : Option Person) (user : Person) (action : String) : Permitted Person :=
  match person with
  | some p => if pkTruthy p.id then Person.permittedQ user action else Permitted.fls
  | Option.none => Person.permittedQ user action

/-- Pk accessor of the Person embedding. -/
def personPk : Person → Option Nat := fun p => p.id

/-- A persisted staff person used as concrete witness data. -/
def alice : Person :=
  { id := some 1, is_staff := true, organizations_employed := [1],
    admin_organization_ids := [1], admin_project_ids := [2],
    admin_operation_ids := [3] }

/-- A transient person (no persisted identity) used as concrete witness
data. -/
def bob : Person :=
  { id := Option.none, is_staff := false, organizations_employed := [],
    admin_organization_ids := [], admin_project_ids := [],
    admin_operation_ids := [] }

/-- Modelled from the spec: the state-transition dispatcher of the
external FSM-field library (django_fsm) is not part of src; per the spec,
an attempted transition from an invalid source state must be rejected,
leaving state unchanged (fail-closed). A method declared with the given
source states succeeds from `current` iff `current` is among the sources
or a wildcard source is declared, and then yields the declared target;
otherwise it fails. -/
def fsmTransition (sources : List String) (target : String) (current : String) : Except String String :=
  if sources.contains current || sources.contains "*" then Except.ok target
  else Except.error ("TransitionNotAllowed")

/-- Post-state of attempting a transition: the target on success, the
unchanged current state on rejection. -/
def fsmApply (t : String → Except String String) (current : String) : String :=
  match t current with
  | Except.ok nxt => nxt
  | Except.error _ => current

/-- Declared transition `Message.publish`: DRAFT to PUBLISHED. -/
def Message.publish : String → Except String String := fsmTransition ["DRAFT"] "PUBLISHED"

/-- Declared transition `Organization.publish`: DRAFT to PUBLISHED. -/
def Organization.publish : String → Except String String := fsmTransition ["DRAFT"] "PUBLISHED"

/-- Declared transition `Project.publish`: DRAFT to PUBLISHED. -/
def Project.publish : String → Except String String := fsmTransition ["DRAFT"] "PUBLISHED"

/-- Declared transition `Operation.publish`: DRAFT to PUBLISHED. -/
def Operation.publish : String → Except String String := fsmTransition ["DRAFT"] "PUBLISHED"

/-- Declared transition `Task.publish`: DRAFT to PUBLISHED. -/
def Task.publish : String → Except String String := fsmTransition ["DRAFT"] "PUBLISHED"

/-- Declared transition `Shift.publish`: DRAFT to PUBLISHED. -/
def Shift.publish : String → Except String String := fsmTransition ["DRAFT"] "PUBLISHED"

/-- Message record: the lifecycle state and the three delivery-channel
states (the other columns of the model do not enter the properties proved
here). -/
structure Message where
  state : String
  email_delivery : String
  push_delivery : String
  sms_delivery : String

/-- Embedding of the `Message.delivery_state` property: the outer loop
walks the labels ERROR, PENDING, SENT, SUCCESS in order and returns the
first that equals some channel's delivery state; if none matches, NONE is
returned. -/
def Message.delivery_state (m : Message) : String :=
  match ["ERROR", "PENDING", "SENT", "SUCCESS"].find?
      (fun st => [m.email_delivery, m.push_delivery, m.sms_delivery].contains st) with
  | some st => st
  | Option.none => "NONE"

/-- One step of a delivery channel, from the transitions declared on
`Message` for each channel (schedule: NONE to SCHEDULED; send: SCHEDULED
to SENT, with on_error FAILED; check: SENT to SUCCEEDED or FAILED; resend:
FAILED to SENT, with on_error FAILED). The dispatcher semantics of the
external FSM library is modelled from the spec's delivery sub-state
machine. -/
inductive ChannelStep : String → String → Prop where
  | schedule : ChannelStep "NONE" "SCHEDULED"
  | send : ChannelStep "SCHEDULED" "SENT"
  | send_failed : ChannelStep "SCHEDULED" "FAILED"
  | check_succeeded : ChannelStep "SENT" "SUCCEEDED"
  | check_failed : ChannelStep "SENT" "FAILED"
  | resend : ChannelStep "FAILED" "SENT"
  | resend_failed : ChannelStep "FAILED" "FAILED"

/-- A channel state reachable from the default NONE through the declared
transitions. -/
def ChannelReachable (s : String) : Prop :=
  Relation.ReflTransGen ChannelStep "NONE" s

/-- Whether an actions-list entry of `filter_permitted` evaluates to an
unconditional allow. -/
def anyTru {α U : Type} (P : Option α → U → String → Permitted α)
    (inst : Option α) (user : U) (acts : List String) : Bool :=
  acts.any (fun a => match P inst user a with
    | Permitted.tru => true
    | _ => false)

/-- The filter predicates (Q objects) returned by `permitted()` over a
list of actions, in order. -/
def collectQs {α U : Type} (P : Option α → U → String → Permitted α)
    (inst : Option α) (user : U) (acts : List String) : List (QObj α) :=
  acts.filterMap (fun a => match P inst user a with
    | Permitted.qobj q => some q
    | _ => Option.none)

/-- Whether an Except value is an error. -/
def exceptIsError {ε δ : Type} : Except ε δ → Bool
  | Except.error _ => true
  | Except.ok _ => false

/-- Normalizing a tuple of strings succeeds and returns exactly those
strings. -/
theorem prepareActionsList_map_str (acts : List String) :
    prepareActionsList (acts.map PyObj.str) = Except.ok acts := by
  induction acts with
  | nil => rfl
  | cons a rest ih => simp [prepareActionsList, Except.map, ih]

/-- Normalizing a tuple of strings through `_prepare_permission_actions`
succeeds and returns exactly those strings. -/
theorem prepare_map_str (acts : List String) :
    _prepare_permission_actions (PyObj.tup (acts.map PyObj.str)) = Except.ok acts :=
  prepareActionsList_map_str acts

/-- On prepared actions, `filter_permitted` returns the action loop run on
the effective queryset with an empty accumulator. -/
theorem filter_permitted_ok {α U : Type} (P : Option α → U → String → Permitted α)
    (objects : List α) (queryset : Option (List α)) (inst : Option α) (user : U)
    (A : PyObj) (acts : List String)
    (hprep : _prepare_permission_actions A = Except.ok acts) :
    filter_permitted P objects queryset inst user A =
      Except.ok (filter_permitted_loop P
        (match queryset with | Option.none => objects | some given => given)
        inst user acts QObj.empty) := by
  unfold filter_permitted
  rw [hprep]
  rfl

/-- The action loop only consults `permitted()` at the given instance, so
two instances on which the predicate agrees yield the same filtered
queryset. -/
theorem filter_permitted_loop_congr {α U : Type}
    (P : Option α → U → String → Permitted α) (queryset : List α)
    (i1 i2 : Option α) (user : U) (acts : List String) (q : QObj α)
    (h : ∀ a, P i1 user a = P i2 user a) :
    filter_permitted_loop P queryset i1 user acts q =
      filter_permitted_loop P queryset i2 user acts q := by
  induction acts generalizing q with
  | nil => rfl
  | cons a rest ih =>
    simp only [filter_permitted_loop, h a]
    cases P i2 user a with
    | tru => rfl
    | fls => exact ih q
    | non => exact ih q
    | qobj p => exact ih (qOr q p)

/-- Characterization of the action loop: if some action evaluates to an
unconditional allow the unfiltered queryset results; otherwise the
returned Q objects are folded onto the accumulator and the queryset is
filtered by the fold if truthy, else emptied. -/
theorem filter_permitted_loop_spec {α U : Type}
    (P : Option α → U → String → Permitted α) (queryset : List α)
    (inst : Option α) (user : U) (acts : List String) (q0 : QObj α) :
    filter_permitted_loop P queryset inst user acts q0 =
      if anyTru P inst user acts then queryset
      else
        if qTruthy ((collectQs P inst user acts).foldl qOr q0) then
          queryset.filter (qPred ((collectQs P inst user acts).foldl qOr q0))
        else [] := by
  induction acts generalizing q0 with
  | nil => simp [filter_permitted_loop, anyTru, collectQs]
  | cons a rest ih =>
    simp only [filter_permitted_loop, anyTru, collectQs, List.any_cons, List.filterMap_cons]
    cases h : P inst user a with
    | tru => simp
    | fls => simpa [anyTru, collectQs] using ih q0
    | non => simpa [anyTru, collectQs] using ih q0
    | qobj p => simpa [anyTru, collectQs] using ih (qOr q0 p)

/-- Every Q object collected from the action loop came from some action's
`permitted()` result. -/
theorem collectQs_mem {α U : Type} (P : Option α → U → String → Permitted α)
    (inst : Option α) (user : U) (acts : List String) (q : QObj α)
    (hq : q ∈ collectQs P inst user acts) :
    ∃ a ∈ acts, P inst user a = Permitted.qobj q := by
  simp only [collectQs, List.mem_filterMap] at hq
  obtain ⟨a, ha, hmatch⟩ := hq
  refine ⟨a, ha, ?_⟩
  cases h : P inst user a <;> simp [h] at hmatch <;> simp [hmatch]

/-- Folding non-empty Q objects onto a non-empty start yields the pointwise
disjunction. -/
theorem foldl_qOr_pred {α : Type} (l : List (QObj α)) (hl : ∀ q ∈ l, q ≠ QObj.empty)
    (p0 : α → Bool) :
    l.foldl qOr (QObj.pred p0) = QObj.pred (fun x => p0 x || l.any (fun q => qPred q x)) := by
  induction l generalizing p0 with
  | nil => simp
  | cons q rest ih =>
    cases q with
    | empty => exact absurd rfl (hl QObj.empty (by simp))
    | pred g =>
      have hrest : ∀ q ∈ rest, q ≠ QObj.empty := fun q hq => hl q (by simp [hq])
      simp only [List.foldl_cons, qOr, ih hrest]
      congr 1
      funext x
      simp [qPred, Bool.or_assoc]

/-- Folding a non-empty list of non-empty Q objects onto the empty
accumulator yields the pointwise disjunction of their predicates. -/
theorem foldl_qOr_of_ne {α : Type} (l : List (QObj α)) (hl : ∀ q ∈ l, q ≠ QObj.empty)
    (hne : l ≠ []) :
    l.foldl qOr QObj.empty = QObj.pred (fun x => l.any (fun q => qPred q x)) := by
  cases l with
  | nil => exact absurd rfl hne
  | cons q rest =>
    cases q with
    | empty => exact absurd rfl (hl QObj.empty (by simp))
    | pred g =>
      have hrest : ∀ q ∈ rest, q ≠ QObj.empty := fun q hq => hl q (by simp [hq])
      show List.foldl qOr (QObj.pred g) rest = _
      rw [foldl_qOr_pred rest hrest g]
      rfl

/-- An OR-fold of booleans over a list equals the any-combinator. -/
theorem foldl_or_eq_any {γ : Type} (f : γ → Bool) (l : List γ) (b : Bool) :
    l.foldl (fun acc a => acc || f a) b = (b || l.any f) := by
  induction l generalizing b with
  | nil => simp
  | cons a rest ih => simp [List.foldl_cons, ih, Bool.or_assoc]

/-- Unfolding the action loop on a head action evaluating to an
unconditional allow. -/
theorem loop_cons_tru {α U : Type} (P : Option α → U → String → Permitted α)
    (qs : List α) (inst : Option α) (user : U) (a : String) (rest : List String)
    (q0 : QObj α) (h : P inst user a = Permitted.tru) :
    filter_permitted_loop P qs inst user (a :: rest) q0 = qs := by
  have h1 : filter_permitted_loop P qs inst user (a :: rest) q0 =
      match P inst user a with
      | Permitted.fls => filter_permitted_loop P qs inst user rest q0
      | Permitted.non => filter_permitted_loop P qs inst user rest q0
      | Permitted.tru => qs
      | Permitted.qobj r => filter_permitted_loop P qs inst user rest (qOr q0 r) := rfl
  rw [h1, h]

/-- Unfolding the action loop on a head action evaluating to False. -/
theorem loop_cons_fls {α U : Type} (P : Option α → U → String → Permitted α)
    (qs : List α) (inst : Option α) (user : U) (a : String) (rest : List String)
    (q0 : QObj α) (h : P inst user a = Permitted.fls) :
    filter_permitted_loop P qs inst user (a :: rest) q0 =
      filter_permitted_loop P qs inst user rest q0 := by
  have h1 : filter_permitted_loop P qs inst user (a :: rest) q0 =
      match P inst user a with
      | Permitted.fls => filter_permitted_loop P qs inst user rest q0
      | Permitted.non => filter_permitted_loop P qs inst user rest q0
      | Permitted.tru => qs
      | Permitted.qobj r => filter_permitted_loop P qs inst user rest (qOr q0 r) := rfl
  rw [h1, h]

/-- Unfolding the action loop on a head action evaluating to None. -/
theorem loop_cons_non {α U : Type} (P : Option α → U → String → Permitted α)
    (qs : List α) (inst : Option α) (user : U) (a : String) (rest : List String)
    (q0 : QObj α) (h : P inst user a = Permitted.non) :
    filter_permitted_loop P qs inst user (a :: rest) q0 =
      filter_permitted_loop P qs inst user rest q0 := by
  have h1 : filter_permitted_loop P qs inst user (a :: rest) q0 =
      match P inst user a with
      | Permitted.fls => filter_permitted_loop P qs inst user rest q0
      | Permitted.non => filter_permitted_loop P qs inst user rest q0
      | Permitted.tru => qs
      | Permitted.qobj r => filter_permitted_loop P qs inst user rest (qOr q0 r) := rfl
  rw [h1, h]

/-- Unfolding the action loop on a head action evaluating to a Q object. -/
theorem loop_cons_qobj {α U : Type} (P : Option α → U → String → Permitted α)
    (qs : List α) (inst : Option α) (user : U) (a : String) (rest : List String)
    (q0 : QObj α) (p : QObj α) (h : P inst user a = Permitted.qobj p) :
    filter_permitted_loop P qs inst user (a :: rest) q0 =
      filter_permitted_loop P qs inst user rest (qOr q0 p) := by
  have h1 : filter_permitted_loop P qs inst user (a :: rest) q0 =
      match P inst user a with
      | Permitted.fls => filter_permitted_loop P qs inst user rest q0
      | Permitted.non => filter_permitted_loop P qs inst user rest q0
      | Permitted.tru => qs
      | Permitted.qobj r => filter_permitted_loop P qs inst user rest (qOr q0 r) := rfl
  rw [h1, h]

/-- Unfolding the action loop on the exhausted action list. -/
theorem loop_nil {α U : Type} (P : Option α → U → String → Permitted α)
    (qs : List α) (inst : Option α) (user : U) (q0 : QObj α) :
    filter_permitted_loop P qs inst user [] q0 =
      if qTruthy q0 then qs.filter (qPred q0) else [] := rfl

/-- OR-combining the empty Q on the left returns the other side. -/
theorem qOr_empty_left {α : Type} (p : QObj α) : qOr QObj.empty p = p := by
  cases p <;> rfl

/-- C2: for every base collection, user and non-empty tuple of action
strings, `filter_permitted` consults `permitted()` per action in order;
False/None results contribute nothing; any True result yields the
unfiltered base collection; otherwise the returned filter predicates are
OR-combined and the base collection restricted by the combination is
returned, or the empty collection if no action yielded an allow or a
filter predicate. (Stated for predicates that never return the degenerate
empty Q object, which no predicate of the repository does.) -/
theorem georga_c2 {α U : Type} (P : Option α → U → String → Permitted α)
    (objects qs : List α) (inst : Option α) (user : U) (acts : List String)
    (hne : acts ≠ [])
    (hq : ∀ a ∈ acts, P inst user a ≠ Permitted.qobj QObj.empty) :
    filter_permitted P objects (some qs) inst user (PyObj.tup (acts.map PyObj.str)) =
      Except.ok (
        if anyTru P inst user acts then qs
        else if (collectQs P inst user acts).isEmpty then []
        else qs.filter (fun x => (collectQs P inst user acts).any (fun q => qPred q x))) := by
  rw [filter_permitted_ok P objects (some qs) inst user _ acts (prepare_map_str acts)]
  congr 1
  rw [filter_permitted_loop_spec]
  by_cases hT : anyTru P inst user acts
  · simp [hT]
  · simp only [hT, Bool.false_eq_true, if_false]
    have hl : ∀ q ∈ collectQs P inst user acts, q ≠ QObj.empty := by
      intro q hqm hcontra
      obtain ⟨a, ha, hres⟩ := collectQs_mem P inst user acts q hqm
      exact hq a ha (by rw [hres, hcontra])
    cases hcl : collectQs P inst user acts with
    | nil => simp [qTruthy]
    | cons qh qt =>
      rw [hcl] at hl
      have hnil : (qh :: qt : List (QObj α)) ≠ [] := by simp
      have htruthy : qTruthy (List.foldl qOr QObj.empty (qh :: qt)) = true := by
        rw [foldl_qOr_of_ne _ hl hnil]
        rfl
      rw [if_pos htruthy,
        if_neg (by simp : ¬((qh :: qt : List (QObj α)).isEmpty = true)),
        foldl_qOr_of_ne _ hl hnil]
      rfl

/-- The witness for C2 instantiates the Person predicate reading a
one-element queryset. -/
theorem georga_c2_witness :
    filter_permitted Person.permitted [alice] (some [alice]) Option.none alice
        (PyObj.tup [PyObj.str "read"]) =
      Except.ok (
        if anyTru Person.permitted Option.none alice ["read"] then [alice]
        else if (collectQs Person.permitted Option.none alice ["read"]).isEmpty then []
        else [alice].filter
          (fun x => (collectQs Person.permitted Option.none alice ["read"]).any
            (fun q => qPred q x))) :=
  georga_c2 Person.permitted [alice] [alice] Option.none alice ["read"]
    (by simp)
    (by
      intro a ha
      simp only [List.mem_singleton] at ha
      subst ha
      simp [Person.permitted, Person.permittedQ])

/-- Adding a second action to the right never removes a row delivered by
the first action alone. -/
theorem loop_two_superset_left {α U : Type} (P : Option α → U → String → Permitted α)
    (qs : List α) (inst : Option α) (user : U) (a b : String) :
    ∀ x ∈ filter_permitted_loop P qs inst user [a] QObj.empty,
      x ∈ filter_permitted_loop P qs inst user [a, b] QObj.empty := by
  intro x hx
  cases ha : P inst user a with
  | tru =>
    rw [loop_cons_tru P qs inst user a [] QObj.empty ha] at hx
    rw [loop_cons_tru P qs inst user a [b] QObj.empty ha]
    exact hx
  | fls =>
    rw [loop_cons_fls P qs inst user a [] QObj.empty ha, loop_nil] at hx
    simp [qTruthy] at hx
  | non =>
    rw [loop_cons_non P qs inst user a [] QObj.empty ha, loop_nil] at hx
    simp [qTruthy] at hx
  | qobj p =>
    rw [loop_cons_qobj P qs inst user a [] QObj.empty p ha, loop_nil, qOr_empty_left] at hx
    rw [loop_cons_qobj P qs inst user a [b] QObj.empty p ha, qOr_empty_left]
    cases p with
    | empty => simp [qTruthy] at hx
    | pred f =>
      have hqt : qTruthy (QObj.pred f) = true := rfl
      rw [if_pos hqt] at hx
      have hmem := List.mem_filter.mp hx
      cases hb : P inst user b with
      | tru =>
        rw [loop_cons_tru P qs inst user b [] (QObj.pred f) hb]
        exact hmem.1
      | fls =>
        rw [loop_cons_fls P qs inst user b [] (QObj.pred f) hb, loop_nil, if_pos hqt]
        exact hx
      | non =>
        rw [loop_cons_non P qs inst user b [] (QObj.pred f) hb, loop_nil, if_pos hqt]
        exact hx
      | qobj r =>
        rw [loop_cons_qobj P qs inst user b [] (QObj.pred f) r hb, loop_nil]
        cases r with
        | empty =>
          have hq1 : qOr (QObj.pred f) QObj.empty = QObj.pred f := rfl
          rw [hq1, if_pos hqt]
          exact hx
        | pred g =>
          have hq2 : qOr (QObj.pred f) (QObj.pred g) = QObj.pred (fun y => f y || g y) := rfl
          have hqt2 : qTruthy (QObj.pred (fun y => f y || g y)) = true := rfl
          rw [hq2, if_pos hqt2]
          refine List.mem_filter.mpr ⟨hmem.1, ?_⟩
          have hfx : f x = true := by simpa [qPred] using hmem.2
          simp [qPred, hfx]

/-- Adding a first action to the left never removes a row delivered by the
second action alone. -/
theorem loop_two_superset_right {α U : Type} (P : Option α → U → String → Permitted α)
    (qs : List α) (inst : Option α) (user : U) (a b : String) :
    ∀ x ∈ filter_permitted_loop P qs inst user [b] QObj.empty,
      x ∈ filter_permitted_loop P qs inst user [a, b] QObj.empty := by
  intro x hx
  have hxqs : x ∈ qs := by
    cases hb : P inst user b with
    | tru =>
      rw [loop_cons_tru P qs inst user b [] QObj.empty hb] at hx
      exact hx
    | fls =>
      rw [loop_cons_fls P qs inst user b [] QObj.empty hb, loop_nil] at hx
      simp [qTruthy] at hx
    | non =>
      rw [loop_cons_non P qs inst user b [] QObj.empty hb, loop_nil] at hx
      simp [qTruthy] at hx
    | qobj r =>
      rw [loop_cons_qobj P qs inst user b [] QObj.empty r hb, loop_nil, qOr_empty_left] at hx
      cases r with
      | empty => simp [qTruthy] at hx
      | pred g =>
        have hqtg : qTruthy (QObj.pred g) = true := rfl
        rw [if_pos hqtg] at hx
        exact (List.mem_filter.mp hx).1
  cases ha : P inst user a with
  | tru =>
    rw [loop_cons_tru P qs inst user a [b] QObj.empty ha]
    exact hxqs
  | fls =>
    rw [loop_cons_fls P qs inst user a [b] QObj.empty ha]
    exact hx
  | non =>
    rw [loop_cons_non P qs inst user a [b] QObj.empty ha]
    exact hx
  | qobj p =>
    rw [loop_cons_qobj P qs inst user a [b] QObj.empty p ha, qOr_empty_left]
    cases p with
    | empty =>
      exact hx
    | pred f =>
      cases hb : P inst user b with
      | tru =>
        rw [loop_cons_tru P qs inst user b [] (QObj.pred f) hb]
        exact hxqs
      | fls =>
        rw [loop_cons_fls P qs inst user b [] QObj.empty hb, loop_nil] at hx
        simp [qTruthy] at hx
      | non =>
        rw [loop_cons_non P qs inst user b [] QObj.empty hb, loop_nil] at hx
        simp [qTruthy] at hx
      | qobj r =>
        rw [loop_cons_qobj P qs inst user b [] QObj.empty r hb, loop_nil, qOr_empty_left] at hx
        rw [loop_cons_qobj P qs inst user b [] (QObj.pred f) r hb, loop_nil]
        cases r with
        | empty => simp [qTruthy] at hx
        | pred g =>
          have hqtg : qTruthy (QObj.pred g) = true := rfl
          rw [if_pos hqtg] at hx
          have hmem := List.mem_filter.mp hx
          have hq2 : qOr (QObj.pred f) (QObj.pred g) = QObj.pred (fun y => f y || g y) := rfl
          have hqt2 : qTruthy (QObj.pred (fun y => f y || g y)) = true := rfl
          rw [hq2, if_pos hqt2]
          refine List.mem_filter.mpr ⟨hmem.1, ?_⟩
          have hgx : g x = true := by simpa [qPred] using hmem.2
          simp [qPred, hgx]

/-- C6: for every base collection, user and two actions a and b, the
collection returned by `filter_permitted` for the action tuple (a, b) is a
superset of the one returned for a alone and of the one returned for b
alone. -/
theorem georga_c6 {α U : Type} (P : Option α → U → String → Permitted α)
    (objects qs : List α) (inst : Option α) (user : U) (a b : String) :
    (∀ la lab,
      filter_permitted P objects (some qs) inst user (PyObj.tup [PyObj.str a]) = Except.ok la →
      filter_permitted P objects (some qs) inst user (PyObj.tup [PyObj.str a, PyObj.str b]) = Except.ok lab →
      ∀ x ∈ la, x ∈ lab) ∧
    (∀ lb lab,
      filter_permitted P objects (some qs) inst user (PyObj.tup [PyObj.str b]) = Except.ok lb →
      filter_permitted P objects (some qs) inst user (PyObj.tup [PyObj.str a, PyObj.str b]) = Except.ok lab →
      ∀ x ∈ lb, x ∈ lab) := by
  have hsa := filter_permitted_ok P objects (some qs) inst user (PyObj.tup [PyObj.str a]) [a] (prepare_map_str [a])
  have hsb := filter_permitted_ok P objects (some qs) inst user (PyObj.tup [PyObj.str b]) [b] (prepare_map_str [b])
  have hsab := filter_permitted_ok P objects (some qs) inst user (PyObj.tup [PyObj.str a, PyObj.str b]) [a, b] (prepare_map_str [a, b])
  constructor
  · intro la lab hla hlab x hx
    rw [hsa] at hla
    rw [hsab] at hlab
    cases hla
    cases hlab
    exact loop_two_superset_left P qs inst user a b x hx
  · intro lb lab hlb hlab x hx
    rw [hsb] at hlb
    rw [hsab] at hlab
    cases hlb
    cases hlab
    exact loop_two_superset_right P qs inst user a b x hx

/-- The witness for C6 instantiates the Person predicate with the actions
read and write on concrete filtered querysets. -/
theorem georga_c6_witness :
    alice ∈ ([alice] : List Person) ∧ alice ∈ ([alice] : List Person) :=
  ⟨(georga_c6 Person.permitted [alice] [alice] Option.none alice "read" "write").1
      [alice] [alice] rfl rfl alice (by simp),
    (georga_c6 Person.permitted [alice] [alice] Option.none alice "read" "write").2
      [alice] [alice] rfl rfl alice (by simp)⟩

/-- C3: for every transient entity (falsy pk), user and action tuple,
`permits` returns the OR over the actions of the boolean coercion of
`permitted(instance, user, action)`, and the result never depends on the
stored collection (no queryset or existence query on this path). -/
theorem georga_c3 {α U : Type} (P : Option α → U → String → Permitted α)
    (objects : List α) (pk : α → Option Nat) (self : α) (user : U)
    (A : PyObj) (acts : List String)
    (hpk : pkTruthy (pk self) = false)
    (hprep : _prepare_permission_actions A = Except.ok acts) :
    permits P objects pk self user A =
      Except.ok (acts.any (fun a => permittedBool (P (some self) user a))) ∧
    ∀ objects2 : List α, permits P objects2 pk self user A = permits P objects pk self user A := by
  have key : ∀ obs : List α, permits P obs pk self user A =
      Except.ok (acts.any (fun a => permittedBool (P (some self) user a))) := by
    intro obs
    unfold permits
    rw [hpk]
    simp only [Bool.false_eq_true, if_false]
    rw [hprep]
    show Except.ok (acts.foldl (fun permit action => permit || permittedBool (P (some self) user action)) false) = _
    rw [foldl_or_eq_any]
    simp
  exact ⟨key objects, fun o2 => by rw [key o2, key objects]⟩

/-- The witness for C3 instantiates a transient person and the Person
predicate. -/
theorem georga_c3_witness :
    permits Person.permitted [alice] personPk bob alice (PyObj.str "read") =
      Except.ok (["read"].any (fun a => permittedBool (Person.permitted (some bob) alice a))) ∧
    permits Person.permitted [] personPk bob alice (PyObj.str "read") =
      permits Person.permitted [alice] personPk bob alice (PyObj.str "read") :=
  ⟨(georga_c3 Person.permitted [alice] personPk bob alice (PyObj.str "read") ["read"] rfl rfl).1,
    (georga_c3 Person.permitted [alice] personPk bob alice (PyObj.str "read") ["read"] rfl rfl).2 []⟩

/-- On a persisted instance and prepared actions, `permits` reduces to the
existence check on the pk-restricted filtered queryset. -/
theorem permits_persisted_eq {α U : Type} (P : Option α → U → String → Permitted α)
    (objects : List α) (pk : α → Option Nat) (e : α) (u : U)
    (A : PyObj) (acts : List String)
    (hpk : pkTruthy (pk e) = true)
    (hprep : _prepare_permission_actions A = Except.ok acts) :
    permits P objects pk e u A =
      Except.ok (!((filter_permitted_loop P objects (some e) u acts QObj.empty).filter
        (fun x => pk x == pk e)).isEmpty) := by
  unfold permits
  rw [hpk, if_pos (Eq.refl true),
    filter_permitted_ok P objects (some objects) (some e) u A acts hprep]
  rfl

/-- C1: for every persisted entity, user and well-formed action argument,
`permits(e, user, actions)` is true exactly when e's primary key appears
in the collection returned by `filter_permitted` on the entity type's full
collection with instance None, the same user and the same actions (stated
for predicates that agree between the persisted instance and None, as
every predicate of the repository does for persisted instances). -/
theorem georga_c1 {α U : Type} (P : Option α → U → String → Permitted α)
    (objects : List α) (pk : α → Option Nat) (e : α) (u : U)
    (A : PyObj) (acts : List String)
    (hpk : pkTruthy (pk e) = true)
    (hprep : _prepare_permission_actions A = Except.ok acts)
    (hins : ∀ a, P (some e) u a = P Option.none u a) :
    permits P objects pk e u A = Except.ok true ↔
      ∃ l, filter_permitted P objects (some objects) Option.none u A = Except.ok l ∧
        ∃ x ∈ l, pk x = pk e := by
  rw [permits_persisted_eq P objects pk e u A acts hpk hprep,
    filter_permitted_ok P objects (some objects) Option.none u A acts hprep,
    filter_permitted_loop_congr P objects (some e) Option.none u acts QObj.empty hins]
  simp only [Except.ok.injEq]
  constructor
  · intro h
    refine ⟨filter_permitted_loop P objects Option.none u acts QObj.empty, rfl, ?_⟩
    have hmain : (!((filter_permitted_loop P objects Option.none u acts QObj.empty).filter
        (fun x => pk x == pk e)).isEmpty) = true := h
    simpa [List.isEmpty_iff, List.filter_eq_nil_iff] using hmain
  · intro ⟨l, hl, hx⟩
    have hl2 : filter_permitted_loop P objects Option.none u acts QObj.empty = l := hl
    subst hl2
    simpa [List.isEmpty_iff, List.filter_eq_nil_iff] using hx

/-- The witness for C1 instantiates the Person predicate with the action
read on a persisted person reading itself. -/
theorem georga_c1_witness :
    permits Person.permitted [alice] personPk alice alice (PyObj.str "read") = Except.ok true ↔
      ∃ l, filter_permitted Person.permitted [alice] (some [alice]) Option.none alice
          (PyObj.str "read") = Except.ok l ∧ ∃ x ∈ l, personPk x = personPk alice :=
  georga_c1 Person.permitted [alice] personPk alice alice (PyObj.str "read") ["read"]
    rfl rfl (fun a => rfl)

/-- The default `permitted()` only ever answers None or False. -/
theorem default_permitted_some_eq {α U : Type} (pk : α → Option Nat)
    (i : α) (u : U) (a : String) :
    MixinAuthorization.permitted pk (some i) u a =
      if pkTruthy (pk i) then Permitted.non else Permitted.fls := rfl

theorem default_permitted_none_eq {α U : Type} (pk : α → Option Nat)
    (u : U) (a : String) :
    MixinAuthorization.permitted pk Option.none u a = Permitted.non := rfl

theorem default_permitted_cases {α U : Type} (pk : α → Option Nat)
    (inst : Option α) (u : U) (a : String) :
    MixinAuthorization.permitted pk inst u a = Permitted.non ∨
      MixinAuthorization.permitted pk inst u a = Permitted.fls := by
  cases inst with
  | none => exact Or.inl (default_permitted_none_eq pk u a)
  | some i =>
    rw [default_permitted_some_eq pk i u a]
    by_cases h : pkTruthy (pk i) = true
    · rw [if_pos h]; exact Or.inl rfl
    · rw [if_neg h]; exact Or.inr rfl

/-- The action loop under the default `permitted()` always produces the
empty queryset. -/
theorem default_loop_nil {α U : Type} (pk : α → Option Nat) (qs : List α)
    (inst : Option α) (u : U) (acts : List String) :
    filter_permitted_loop (MixinAuthorization.permitted pk) qs inst u acts QObj.empty = [] := by
  rw [filter_permitted_loop_spec]
  have hT : anyTru (MixinAuthorization.permitted pk) inst u acts = false := by
    unfold anyTru
    rw [List.any_eq_false]
    intro a ha
    rcases default_permitted_cases pk inst u a with h | h <;> simp [h]
  have hC : collectQs (MixinAuthorization.permitted pk) inst u acts = [] := by
    unfold collectQs
    rw [List.filterMap_eq_nil_iff]
    intro a ha
    rcases default_permitted_cases pk inst u a with h | h <;> simp [h]
  simp [hT, hC, qTruthy]

/-- On a transient instance and prepared actions, `permits` reduces to the
OR of the boolean coercions of the predicate results. -/
theorem permits_transient_eq {α U : Type} (P : Option α → U → String → Permitted α)
    (objects : List α) (pk : α → Option Nat) (self : α) (u : U)
    (A : PyObj) (acts : List String)
    (hpk : pkTruthy (pk self) = false)
    (hprep : _prepare_permission_actions A = Except.ok acts) :
    permits P objects pk self u A =
      Except.ok (acts.any (fun a => permittedBool (P (some self) u a))) := by
  unfold permits
  rw [hpk]
  simp only [Bool.false_eq_true, if_false]
  rw [hprep]
  show Except.ok (acts.foldl (fun permit action => permit || permittedBool (P (some self) u action)) false) = _
  rw [foldl_or_eq_any]
  simp

/-- The queryset arm of `ACE.permitted` answers None on any action other
than read, update or delete. -/
theorem ACE.permittedQs_unmatched (u : Person) (action : String)
    (h1 : action ≠ "read") (h2 : action ≠ "update") (h3 : action ≠ "delete") :
    ACE.permittedQs u action = Permitted.non := by
  unfold ACE.permittedQs
  split <;> simp_all

/-- The queryset arm of `Person.permitted` answers None on any action
other than read or write. -/
theorem Person.permittedQ_unmatched (u : Person) (action : String)
    (h1 : action ≠ "read") (h2 : action ≠ "write") :
    Person.permittedQ u action = Permitted.non := by
  unfold Person.permittedQ
  split <;> simp_all

theorem ACE.permitted_not_staff (u : Person) (ace : Option ACEEnt) (action : String)
    (h : u.is_staff = false) : ACE.permitted ace u action = Permitted.fls := by
  unfold ACE.permitted
  rw [h]
  rfl

theorem ACE.permitted_staff_none (u : Person) (action : String)
    (h : u.is_staff = true) :
    ACE.permitted Option.none u action = ACE.permittedQs u action := by
  unfold ACE.permitted
  rw [h]
  rfl

theorem ACE.permitted_staff_some (u : Person) (a : ACEEnt) (action : String)
    (h : u.is_staff = true) :
    ACE.permitted (some a) u action =
      if pkTruthy a.id then ACE.permittedQs u action
      else ACE.permittedTransient a u action := by
  unfold ACE.permitted
  rw [h]
  rfl

theorem ACE.permittedTransient_not_create (a : ACEEnt) (u : Person) (action : String)
    (h : action ≠ "create") : ACE.permittedTransient a u action = Permitted.fls := by
  unfold ACE.permittedTransient
  split <;> simp_all

theorem Person.permitted_none_eq (u : Person) (action : String) :
    Person.permitted Option.none u action = Person.permittedQ u action := rfl

theorem Person.permitted_some_eq (p u : Person) (action : String) :
    Person.permitted (some p) u action =
      if pkTruthy p.id then Person.permittedQ u action else Permitted.fls := rfl

/-- C4: for entity types that do not override `permitted()` the default
denies everything: it answers False for a transient instance and None
otherwise, `permits` answers false, and `filter_permitted` returns the
empty collection; moreover the overriding predicates of ACE and Person
answer False or None on every action string they do not explicitly match,
so unknown actions are always denied. -/
theorem georga_c4 {α U : Type} (pk : α → Option Nat) :
    (∀ (x : α) (u : U) (a : String), pkTruthy (pk x) = false →
        MixinAuthorization.permitted pk (some x) u a = Permitted.fls) ∧
    (∀ (x : α) (u : U) (a : String), pkTruthy (pk x) = true →
        MixinAuthorization.permitted pk (some x) u a = Permitted.non) ∧
    (∀ (u : U) (a : String),
        MixinAuthorization.permitted pk Option.none u a = Permitted.non) ∧
    (∀ (objects : List α) (self : α) (u : U) (A : PyObj) (acts : List String),
        _prepare_permission_actions A = Except.ok acts →
        permits (MixinAuthorization.permitted pk) objects pk self u A = Except.ok false) ∧
    (∀ (objects : List α) (queryset : Option (List α)) (inst : Option α) (u : U)
        (A : PyObj) (acts : List String),
        _prepare_permission_actions A = Except.ok acts →
        filter_permitted (MixinAuthorization.permitted pk) objects queryset inst u A =
          Except.ok []) ∧
    (∀ action : String, action ∉ (["create", "read", "update", "delete"] : List String) →
        ∀ (ace : Option ACEEnt) (u : Person),
          ACE.permitted ace u action = Permitted.fls ∨
            ACE.permitted ace u action = Permitted.non) ∧
    (∀ action : String, action ∉ (["read", "write"] : List String) →
        ∀ (p : Option Person) (u : Person),
          Person.permitted p u action = Permitted.fls ∨
            Person.permitted p u action = Permitted.non) := by
  refine ⟨?_, ?_, ?_, ?_, ?_, ?_, ?_⟩
  · intro x u a h
    simp [MixinAuthorization.permitted, h]
  · intro x u a h
    simp [MixinAuthorization.permitted, h]
  · intro u a
    simp [MixinAuthorization.permitted]
  · intro objects self u A acts hprep
    cases hpk : pkTruthy (pk self) with
    | false =>
      rw [permits_transient_eq (MixinAuthorization.permitted pk) objects pk self u A acts hpk hprep]
      congr 1
      rw [List.any_eq_false]
      intro a ha
      have hfls : MixinAuthorization.permitted pk (some self) u a = Permitted.fls := by
        simp [MixinAuthorization.permitted, hpk]
      simp [hfls, permittedBool]
    | true =>
      rw [permits_persisted_eq (MixinAuthorization.permitted pk) objects pk self u A acts hpk hprep]
      rw [default_loop_nil]
      simp
  · intro objects queryset inst u A acts hprep
    rw [filter_permitted_ok (MixinAuthorization.permitted pk) objects queryset inst u A acts hprep]
    rw [default_loop_nil]
  · intro action hnotin ace u
    have h1 : action ≠ "create" := by intro h; exact hnotin (by simp [h])
    have h2 : action ≠ "read" := by intro h; exact hnotin (by simp [h])
    have h3 : action ≠ "update" := by intro h; exact hnotin (by simp [h])
    have h4 : action ≠ "delete" := by intro h; exact hnotin (by simp [h])
    have hqs := ACE.permittedQs_unmatched u action h2 h3 h4
    by_cases hstaff : u.is_staff = true
    · cases ace with
      | none =>
        rw [ACE.permitted_staff_none u action hstaff]
        exact Or.inr hqs
      | some a =>
        rw [ACE.permitted_staff_some u a action hstaff]
        by_cases hid : pkTruthy a.id = true
        · rw [if_pos hid]
          exact Or.inr hqs
        · rw [if_neg hid, ACE.permittedTransient_not_create a u action h1]
          exact Or.inl rfl
    · have hf : u.is_staff = false := by simpa using hstaff
      rw [ACE.permitted_not_staff u ace action hf]
      exact Or.inl rfl
  · intro action hnotin p u
    have h1 : action ≠ "read" := by intro h; exact hnotin (by simp [h])
    have h2 : action ≠ "write" := by intro h; exact hnotin (by simp [h])
    have hq := Person.permittedQ_unmatched u action h1 h2
    cases p with
    | none =>
      rw [Person.permitted_none_eq u action]
      exact Or.inr hq
    | some x =>
      rw [Person.permitted_some_eq x u action]
      by_cases hid : pkTruthy x.id = true
      · rw [if_pos hid]
        exact Or.inr hq
      · rw [if_neg hid]
        exact Or.inl rfl

/-- The witness for C4 evaluates the default predicate, `permits` and
`filter_permitted` on concrete persons and the overridden predicates on a
concrete unknown action. -/
theorem georga_c4_witness :
    MixinAuthorization.permitted personPk (some bob) alice "read" = Permitted.fls ∧
    MixinAuthorization.permitted personPk (some alice) alice "read" = Permitted.non ∧
    MixinAuthorization.permitted personPk Option.none alice "read" = Permitted.non ∧
    permits (MixinAuthorization.permitted personPk) [alice] personPk alice alice
      (PyObj.str "read") = Except.ok false ∧
    filter_permitted (MixinAuthorization.permitted personPk) [alice] (some [alice])
      Option.none alice (PyObj.str "read") = Except.ok [] ∧
    (ACE.permitted Option.none alice "frobnicate" = Permitted.fls ∨
      ACE.permitted Option.none alice "frobnicate" = Permitted.non) ∧
    (Person.permitted Option.none alice "frobnicate" = Permitted.fls ∨
      Person.permitted Option.none alice "frobnicate" = Permitted.non) := by
  have h := georga_c4 (U := Person) personPk
  exact ⟨h.1 bob alice "read" rfl, h.2.1 alice alice "read" rfl, h.2.2.1 alice "read",
    h.2.2.2.1 [alice] alice alice (PyObj.str "read") ["read"] rfl,
    h.2.2.2.2.1 [alice] (some [alice]) Option.none alice (PyObj.str "read") ["read"] rfl,
    h.2.2.2.2.2.1 "frobnicate" (by simp) Option.none alice,
    h.2.2.2.2.2.2 "frobnicate" (by simp) Option.none alice⟩

theorem prepareActionsList_error (l : List PyObj)
    (h : ∃ e ∈ l, ∀ s : String, e ≠ PyObj.str s) :
    exceptIsError (prepareActionsList l) = true := by
  induction l with
  | nil => obtain ⟨e, he, _⟩ := h; simp at he
  | cons hd tl ih =>
    obtain ⟨e, he, hns⟩ := h
    rcases List.mem_cons.mp he with rfl | hmem
    · cases e with
      | str s => exact absurd rfl (hns s)
      | int n => rfl
      | tup l2 => rfl
      | pynone => rfl
    · cases hd with
      | str s =>
        have htl := ih ⟨e, hmem, hns⟩
        show exceptIsError ((prepareActionsList tl).map (fun l => s :: l)) = true
        cases hpt : prepareActionsList tl with
        | ok l2 => rw [hpt] at htl; simp [exceptIsError] at htl
        | error msg => rfl
      | int n => rfl
      | tup l2 => rfl
      | pynone => rfl

/-- C5 counterexample: contrary to the claim, an empty actions tuple is
not rejected: normalization accepts it and `filter_permitted` / `permits`
silently return the empty collection / false instead of raising. -/
theorem georga_c5_counterexample :
    _prepare_permission_actions (PyObj.tup []) = Except.ok [] ∧
    filter_permitted Person.permitted [alice] (some [alice]) Option.none alice
      (PyObj.tup []) = Except.ok [] ∧
    permits Person.permitted [alice] personPk alice alice (PyObj.tup []) =
      Except.ok false :=
  ⟨rfl, rfl, rfl⟩

/-- C5 (amended): an actions argument that is neither a string nor a
tuple fails immediately, as does a tuple containing a non-string member,
and such failures propagate out of `filter_permitted` and `permits`; an
empty tuple, however, is accepted (it is not treated as a caller error). -/
theorem georga_c5_amended :
    exceptIsError (_prepare_permission_actions PyObj.pynone) = true ∧
    (∀ n : Int, exceptIsError (_prepare_permission_actions (PyObj.int n)) = true) ∧
    (∀ l : List PyObj, (∃ e ∈ l, ∀ s : String, e ≠ PyObj.str s) →
      exceptIsError (_prepare_permission_actions (PyObj.tup l)) = true) ∧
    (∀ (α U : Type) (P : Option α → U → String → Permitted α) (objects : List α)
      (queryset : Option (List α)) (inst : Option α) (u : U) (A : PyObj),
      exceptIsError (_prepare_permission_actions A) = true →
      exceptIsError (filter_permitted P objects queryset inst u A) = true) ∧
    (∀ (α U : Type) (P : Option α → U → String → Permitted α) (objects : List α)
      (pk : α → Option Nat) (self : α) (u : U) (A : PyObj),
      exceptIsError (_prepare_permission_actions A) = true →
      exceptIsError (permits P objects pk self u A) = true) := by
  refine ⟨rfl, fun n => rfl, ?_, ?_, ?_⟩
  · intro l hl
    exact prepareActionsList_error l hl
  · intro α U P objects queryset inst u A hA
    cases h : _prepare_permission_actions A with
    | ok acts => rw [h] at hA; simp [exceptIsError] at hA
    | error msg =>
      unfold filter_permitted
      rw [h]
      rfl
  · intro α U P objects pk self u A hA
    cases h : _prepare_permission_actions A with
    | ok acts => rw [h] at hA; simp [exceptIsError] at hA
    | error msg =>
      unfold permits filter_permitted
      by_cases hp : pkTruthy (pk self) = true
      · rw [if_pos hp, h]
        rfl
      · rw [if_neg hp, h]
        rfl

/-- The witness for the amended C5 evaluates the failures at a tuple with
an int member, a None actions argument and an int actions argument. -/
theorem georga_c5_amended_witness :
    exceptIsError (_prepare_permission_actions (PyObj.tup [PyObj.int 0])) = true ∧
    exceptIsError (filter_permitted Person.permitted [alice] (some [alice])
      Option.none alice PyObj.pynone) = true ∧
    exceptIsError (permits Person.permitted [alice] personPk alice alice
      (PyObj.int 3)) = true := by
  have h := georga_c5_amended
  exact ⟨h.2.2.1 [PyObj.int 0] ⟨PyObj.int 0, by simp, fun s hcon => PyObj.noConfusion hcon⟩,
    h.2.2.2.1 Person Person Person.permitted [alice] (some [alice]) Option.none alice
      PyObj.pynone rfl,
    h.2.2.2.2 Person Person Person.permitted [alice] personPk alice alice
      (PyObj.int 3) rfl⟩

theorem publish_spec (s : String) :
    (fsmTransition ["DRAFT"] "PUBLISHED" s = Except.ok "PUBLISHED" ↔ s = "DRAFT") ∧
    (s ≠ "DRAFT" → exceptIsError (fsmTransition ["DRAFT"] "PUBLISHED" s) = true ∧
      fsmApply (fsmTransition ["DRAFT"] "PUBLISHED") s = s) := by
  by_cases h : s = "DRAFT"
  · subst h
    refine ⟨⟨fun _ => rfl, fun _ => rfl⟩, fun hcon => absurd rfl hcon⟩
  · have hc : ((["DRAFT"] : List String).contains s || (["DRAFT"] : List String).contains "*") = false := by
      simp only [Bool.or_eq_false_iff]
      constructor
      · simpa using h
      · simp
    constructor
    · constructor
      · intro hok
        unfold fsmTransition at hok
        rw [hc] at hok
        simp at hok
      · intro hcon
        exact absurd hcon h
    · intro _
      constructor
      · unfold fsmTransition
        rw [hc]
        rfl
      · unfold fsmApply fsmTransition
        rw [hc]
        rfl

/-- C7: for every lifecycle-bearing entity (Message, Organization,
Project, Operation, Task, Shift) the declared transition publish succeeds
exactly from DRAFT, yielding PUBLISHED; from any other state (in
particular ARCHIVED) it is rejected with an error and the state is left
unchanged. -/
theorem georga_c7 (s : String) :
    ((Message.publish s = Except.ok "PUBLISHED" ↔ s = "DRAFT") ∧
      (s ≠ "DRAFT" → exceptIsError (Message.publish s) = true ∧
        fsmApply Message.publish s = s)) ∧
    ((Organization.publish s = Except.ok "PUBLISHED" ↔ s = "DRAFT") ∧
      (s ≠ "DRAFT" → exceptIsError (Organization.publish s) = true ∧
        fsmApply Organization.publish s = s)) ∧
    ((Project.publish s = Except.ok "PUBLISHED" ↔ s = "DRAFT") ∧
      (s ≠ "DRAFT" → exceptIsError (Project.publish s) = true ∧
        fsmApply Project.publish s = s)) ∧
    ((Operation.publish s = Except.ok "PUBLISHED" ↔ s = "DRAFT") ∧
      (s ≠ "DRAFT" → exceptIsError (Operation.publish s) = true ∧
        fsmApply Operation.publish s = s)) ∧
    ((Task.publish s = Except.ok "PUBLISHED" ↔ s = "DRAFT") ∧
      (s ≠ "DRAFT" → exceptIsError (Task.publish s) = true ∧
        fsmApply Task.publish s = s)) ∧
    ((Shift.publish s = Except.ok "PUBLISHED" ↔ s = "DRAFT") ∧
      (s ≠ "DRAFT" → exceptIsError (Shift.publish s) = true ∧
        fsmApply Shift.publish s = s)) := by
  have h := publish_spec s
  exact ⟨h, h, h, h, h, h⟩

/-- The witness for C7 publishes a draft Message and attempts publish on
an archived instance of each of the six entity types. -/
theorem georga_c7_witness :
    Message.publish "DRAFT" = Except.ok "PUBLISHED" ∧
    (exceptIsError (Message.publish "ARCHIVED") = true ∧
      fsmApply Message.publish "ARCHIVED" = "ARCHIVED") ∧
    (exceptIsError (Organization.publish "ARCHIVED") = true ∧
      fsmApply Organization.publish "ARCHIVED" = "ARCHIVED") ∧
    (exceptIsError (Project.publish "ARCHIVED") = true ∧
      fsmApply Project.publish "ARCHIVED" = "ARCHIVED") ∧
    (exceptIsError (Operation.publish "ARCHIVED") = true ∧
      fsmApply Operation.publish "ARCHIVED" = "ARCHIVED") ∧
    (exceptIsError (Task.publish "ARCHIVED") = true ∧
      fsmApply Task.publish "ARCHIVED" = "ARCHIVED") ∧
    (exceptIsError (Shift.publish "ARCHIVED") = true ∧
      fsmApply Shift.publish "ARCHIVED" = "ARCHIVED") := by
  have hd := georga_c7 "DRAFT"
  have ha := georga_c7 "ARCHIVED"
  exact ⟨hd.1.1.mpr rfl,
    ha.1.2 (by decide),
    ha.2.1.2 (by decide),
    ha.2.2.1.2 (by decide),
    ha.2.2.2.1.2 (by decide),
    ha.2.2.2.2.1.2 (by decide),
    ha.2.2.2.2.2.2 (by decide)⟩

/-- C8: the derived read-only delivery_state walks the labels ERROR,
PENDING, SENT, SUCCESS in that priority order and returns the first one
equal to some channel's state, NONE when none matches; in particular it
returns PENDING for email SENT, push PENDING, sms NONE. -/
theorem georga_c8 :
    (∀ m : Message,
      Message.delivery_state m =
        (if "ERROR" ∈ [m.email_delivery, m.push_delivery, m.sms_delivery] then "ERROR"
         else if "PENDING" ∈ [m.email_delivery, m.push_delivery, m.sms_delivery] then "PENDING"
         else if "SENT" ∈ [m.email_delivery, m.push_delivery, m.sms_delivery] then "SENT"
         else if "SUCCESS" ∈ [m.email_delivery, m.push_delivery, m.sms_delivery] then "SUCCESS"
         else "NONE")) ∧
    Message.delivery_state
      { state := "DRAFT", email_delivery := "SENT", push_delivery := "PENDING",
        sms_delivery := "NONE" } = "PENDING" := by
  constructor
  · intro m
    unfold Message.delivery_state
    by_cases h1 : "ERROR" ∈ [m.email_delivery, m.push_delivery, m.sms_delivery]
    · rw [List.find?_cons_of_pos _ (by simpa using h1), if_pos h1]
    · rw [List.find?_cons_of_neg _ (by simpa using h1), if_neg h1]
      by_cases h2 : "PENDING" ∈ [m.email_delivery, m.push_delivery, m.sms_delivery]
      · rw [List.find?_cons_of_pos _ (by simpa using h2), if_pos h2]
      · rw [List.find?_cons_of_neg _ (by simpa using h2), if_neg h2]
        by_cases h3 : "SENT" ∈ [m.email_delivery, m.push_delivery, m.sms_delivery]
        · rw [List.find?_cons_of_pos _ (by simpa using h3), if_pos h3]
        · rw [List.find?_cons_of_neg _ (by simpa using h3), if_neg h3]
          by_cases h4 : "SUCCESS" ∈ [m.email_delivery, m.push_delivery, m.sms_delivery]
          · rw [List.find?_cons_of_pos _ (by simpa using h4), if_pos h4]
          · rw [List.find?_cons_of_neg _ (by simpa using h4), if_neg h4]
            rfl
  · decide

/-- C9: an access-control entry passes `clean` exactly when its content
type is the georga app with a model in the declared valid set, its person
is staff, and that person is employed by the organization of the target
instance; violating any of the three conditions yields a validation
error. -/
theorem georga_c9 (a : ACEEnt) :
    ACE.clean a = Except.ok () ↔
      (a.instance_ct_app_label = "georga" ∧
        a.instance_ct_model ∈ ACE.instance_cts ∧
        a.person.is_staff = true ∧
        a.instance_obj.organizationId ∈ a.person.organizations_employed) := by
  unfold ACE.clean
  split_ifs with h1 h2 h3 <;> simp_all
  intro hl hm _
  rcases h1 with h | h
  · exact absurd hl h
  · exact absurd hm h

/-- States reachable from NONE through the declared channel transitions. -/
theorem channelReachable_mem (s : String) (h : ChannelReachable s) :
    s = "NONE" ∨ s = "SCHEDULED" ∨ s = "SENT" ∨ s = "SUCCEEDED" ∨ s = "FAILED" := by
  induction h with
  | refl => exact Or.inl rfl
  | tail hab hbc ih => cases hbc <;> simp

/-- C10: when the three channel fields evolve only through the declared
channel transitions from the default NONE, the derived delivery_state can
only report SENT or NONE: the labels ERROR, PENDING and SUCCESS it
compares against are never produced, so a message with a SUCCEEDED or
FAILED channel (and no SENT channel) reports NONE. -/
theorem georga_c10 :
    (∀ m : Message, ChannelReachable m.email_delivery →
      ChannelReachable m.push_delivery → ChannelReachable m.sms_delivery →
      (Message.delivery_state m = "SENT" ∨ Message.delivery_state m = "NONE")) ∧
    Message.delivery_state
      { state := "DRAFT", email_delivery := "SUCCEEDED", push_delivery := "FAILED",
        sms_delivery := "NONE" } = "NONE" := by
  constructor
  · intro m he hp hs
    obtain ⟨st, e, p, s⟩ := m
    dsimp only at he hp hs ⊢
    rw [show Message.delivery_state ⟨st, e, p, s⟩ =
      Message.delivery_state ⟨"DRAFT", e, p, s⟩ from rfl]
    have hme := channelReachable_mem e he
    have hmp := channelReachable_mem p hp
    have hms := channelReachable_mem s hs
    rcases hme with rfl | rfl | rfl | rfl | rfl <;>
      rcases hmp with rfl | rfl | rfl | rfl | rfl <;>
        rcases hms with rfl | rfl | rfl | rfl | rfl <;>
          decide
  · decide

/-- The witness for C10 reaches SUCCEEDED, FAILED and NONE through
declared transition chains and evaluates delivery_state there. -/
theorem georga_c10_witness :
    Message.delivery_state
      { state := "DRAFT", email_delivery := "SUCCEEDED", push_delivery := "FAILED",
        sms_delivery := "NONE" } = "SENT" ∨
    Message.delivery_state
      { state := "DRAFT", email_delivery := "SUCCEEDED", push_delivery := "FAILED",
        sms_delivery := "NONE" } = "NONE" :=
  georga_c10.1
    { state := "DRAFT", email_delivery := "SUCCEEDED", push_delivery := "FAILED",
      sms_delivery := "NONE" }
    (Relation.ReflTransGen.head ChannelStep.schedule
      (Relation.ReflTransGen.head ChannelStep.send
        (Relation.ReflTransGen.head ChannelStep.check_succeeded Relation.ReflTransGen.refl)))
    (Relation.ReflTransGen.head ChannelStep.schedule
      (Relation.ReflTransGen.head ChannelStep.send_failed Relation.ReflTransGen.refl))
    Relation.ReflTransGen.refl
